import Mathlib

/-!
Shallow embedding of the `pillar` entity-identifier codec
(`src/entity.rs`, `src/entity/index.rs`, `src/entity/generation.rs`,
`src/entity/data.rs`).

Machine integers are modelled as `Nat`; the `u32`/`u64` width bound is an
explicit well-formedness predicate (`Wf`), and wrapping arithmetic is an
explicit `% 2^32`.  The `NonZero<u32>` type invariant of `EntityIndex.bits`
is intrinsic to the structure, mirroring the check `NonZero::new` performs.
-/

/-- `EntityGen` (src/entity/generation.rs): a plain `u32` generation counter. -/
structure EntityGen where
  bits : Nat
deriving DecidableEq

/-- `EntityIndex` (src/entity/index.rs): stores the index incremented by one
in a `NonZero<u32>`, so the stored pattern is never zero. -/
structure EntityIndex where
  bits : Nat
  bits_pos : 0 < bits

instance : DecidableEq EntityIndex := fun a b =>
  if h : a.bits = b.bits then
    isTrue (by cases a; cases b; cases h; rfl)
  else
    isFalse (fun he => h (congrArg EntityIndex.bits he))

/-- The `u32` range bound on the stored bits, left extrinsic in the model. -/
def EntityIndex.Wf (i : EntityIndex) : Prop := i.bits < 2 ^ 32

instance (i : EntityIndex) : Decidable i.Wf := Nat.decLt _ _

/-- The `u32` range bound on the stored bits, left extrinsic in the model. -/
def EntityGen.Wf (g : EntityGen) : Prop := g.bits < 2 ^ 32

instance (g : EntityGen) : Decidable g.Wf := Nat.decLt _ _

/-- `EntityGen::from_bits` (generation.rs): currently never returns `None`. -/
def EntityGen.from_bits (bits : Nat) : Option EntityGen :=
  some { bits := bits }

/-- `EntityGen::to_bits` (generation.rs). -/
def EntityGen.to_bits (g : EntityGen) : Nat := g.bits

/-- `EntityGen::new` (generation.rs). -/
def EntityGen.new (generation : Nat) : Option EntityGen :=
  EntityGen.from_bits generation

/-- `EntityGen::get` (generation.rs). -/
def EntityGen.get (g : EntityGen) : Nat := g.to_bits

/-- `EntityGen::MIN` (generation.rs): `EntityGen::new(0).unwrap()`. -/
def EntityGen.MIN : EntityGen := (EntityGen.new 0).get (by decide)

/-- `EntityGen::MAX` (generation.rs): `EntityGen::new(u32::MAX).unwrap()`. -/
def EntityGen.MAX : EntityGen := (EntityGen.new (2 ^ 32 - 1)).get (by decide)

/-- `impl Default for EntityGen` (generation.rs): returns `EntityGen::MIN`. -/
def EntityGen.default : EntityGen := EntityGen.MIN

/-- `EntityIndex::from_bits` (index.rs): `NonZero::new(bits)`, i.e. fails
exactly when `bits == 0`. -/
def EntityIndex.from_bits (bits : Nat) : Option EntityIndex :=
  if h : 0 < bits then some { bits := bits, bits_pos := h } else none

/-- `EntityIndex::to_bits` (index.rs): the internal offset representation. -/
def EntityIndex.to_bits (i : EntityIndex) : Nat := i.bits

/-- `EntityIndex::new` (index.rs): `from_bits(index.wrapping_add(1))`;
the wrap of `u32` addition is the explicit `% 2^32`. -/
def EntityIndex.new (index : Nat) : Option EntityIndex :=
  EntityIndex.from_bits ((index + 1) % 2 ^ 32)

/-- `EntityIndex::get` (index.rs): `self.bits.get() - 1`. -/
def EntityIndex.get (i : EntityIndex) : Nat := i.bits - 1

/-- `EntityIndex::MIN` (index.rs): `EntityIndex::new(0).unwrap()`. -/
def EntityIndex.MIN : EntityIndex := (EntityIndex.new 0).get (by decide)

/-- `EntityIndex::MAX` (index.rs): `EntityIndex::new(u32::MAX - 1).unwrap()`. -/
def EntityIndex.MAX : EntityIndex := (EntityIndex.new (2 ^ 32 - 2)).get (by decide)

/-- `EntityIndex::PLACEHOLDER` (index.rs): just `EntityIndex::MAX`. -/
def EntityIndex.PLACEHOLDER : EntityIndex := EntityIndex.MAX

/-- `EntityIndex::is_placeholder` (index.rs):
`matches!(self, EntityIndex::PLACEHOLDER)`. -/
def EntityIndex.is_placeholder (i : EntityIndex) : Bool :=
  decide (i = EntityIndex.PLACEHOLDER)

/-- `impl Default for EntityIndex` (index.rs): returns
`EntityIndex::PLACEHOLDER`. -/
def EntityIndex.default : EntityIndex := EntityIndex.PLACEHOLDER

/-- The `try_into!` macro instances (index.rs lines 174-203):
`impl TryFrom<EntityIndex> for $ty` is `$ty::try_from(value.get())`, one
instance per unsigned width (`u8`, `u16`, ...).  `$ty::try_from` on a `u32`
succeeds iff the value fits in the target width, else it is a
`TryFromIntError`; `none` models that error. -/
def uintTryFrom (width : Nat) (value : Nat) : Option Nat :=
  if value < 2 ^ width then some value else none

/-- `impl TryFrom<EntityIndex> for $ty` (index.rs `try_into!` macro),
parameterised by the unsigned target width: `$ty::try_from(value.get())`. -/
def EntityIndex.try_into_uint (width : Nat) (value : EntityIndex) : Option Nat :=
  uintTryFrom width value.get

/-- `EntityData` (data.rs): fields ordered so that, transmuted to a `u64`,
`index` occupies the most significant 32 bits (little-endian field order
`generation, index`; reversed on big-endian, same numeric word). -/
structure EntityData where
  generation : EntityGen
  index : EntityIndex
deriving DecidableEq

/-- `Entity` (entity.rs): stores a `NonZero<u64>` that is the transmute of an
`EntityData`; the model keeps the `EntityData` view, the numeric storage word
is `Entity.to_bits`. -/
structure Entity where
  data : EntityData
deriving DecidableEq

/-- `Entity::new` (entity.rs): transmute of `EntityData { generation, index }`. -/
def Entity.new (index : EntityIndex) (generation : EntityGen) : Entity :=
  { data := { generation := generation, index := index } }

/-- `Entity::index` (entity.rs). -/
def Entity.index (e : Entity) : EntityIndex := e.data.index

/-- `Entity::generation` (entity.rs). -/
def Entity.generation (e : Entity) : EntityGen := e.data.generation

/-- `Entity::to_bits` (entity.rs): transmutes the entity to its `u64` storage
word.  Numerically that word is the internal index bits in the upper 32 bits
and the generation bits in the lower 32 bits. -/
def Entity.to_bits (e : Entity) : Nat :=
  e.data.index.to_bits * 2 ^ 32 + e.data.generation.to_bits

/-- `RawData` (data.rs): the plain-old-data shadow of `EntityData`. -/
structure RawData where
  generation : Nat
  index : Nat

/-- `RawData::decode` (data.rs): transmutes a `u64` into the two 32-bit
fields; `index` is the upper half, `generation` the lower half. -/
def RawData.decode (bits : Nat) : RawData :=
  { generation := bits % 2 ^ 32, index := bits / 2 ^ 32 }

/-- `Entity::from_bits` (entity.rs): decode the raw fields, then validate
them through `EntityIndex::from_bits` and `EntityGen::from_bits`. -/
def Entity.from_bits (bits : Nat) : Option Entity :=
  match EntityIndex.from_bits (RawData.decode bits).index,
        EntityGen.from_bits (RawData.decode bits).generation with
  | some index, some generation => some (Entity.new index generation)
  | _, _ => none

/-- `Entity::PLACEHOLDER` (entity.rs). -/
def Entity.PLACEHOLDER : Entity :=
  Entity.new EntityIndex.PLACEHOLDER EntityGen.MIN

/-- `impl Ord for Entity` (entity.rs): `self.to_bits().cmp(&other.to_bits())`. -/
def Entity.cmp (a b : Entity) : Ordering :=
  compare a.to_bits b.to_bits

/-- `impl PartialOrd for Entity`, `lt` (entity.rs):
`self.to_bits() < other.to_bits()`. -/
def Entity.lt (a b : Entity) : Bool :=
  decide (a.to_bits < b.to_bits)

/-- Well-formedness of a composite entity: both fields in `u32` range. -/
def Entity.Wf (e : Entity) : Prop :=
  e.index.Wf ∧ e.generation.Wf

instance (e : Entity) : Decidable e.Wf := instDecidableAnd

/-- Lexicographic order on the decoded `(index.get(), generation.get())`
pair, as the spec describes the ordering contract. -/
def Entity.lexLt (a b : Entity) : Prop :=
  a.index.get < b.index.get ∨
    (a.index.get = b.index.get ∧ a.generation.get < b.generation.get)

instance (a b : Entity) : Decidable (Entity.lexLt a b) := instDecidableOr

/-- Extensionality for `EntityIndex`: the stored bits determine the value. -/
theorem EntityIndex.eq_of_bits {a b : EntityIndex} (h : a.bits = b.bits) : a = b := by
  cases a; cases b; cases h; rfl

/-- Extensionality for `Entity`: the two stored bit fields determine the value. -/
theorem Entity.eq_of_field_bits {a b : Entity} (hi : a.index.bits = b.index.bits)
    (hg : a.generation.bits = b.generation.bits) : a = b := by
  obtain ⟨⟨⟨ga⟩, ⟨ia, ipa⟩⟩⟩ := a
  obtain ⟨⟨⟨gb⟩, ⟨ib, ipb⟩⟩⟩ := b
  simp only [Entity.index, Entity.generation] at hi hg
  cases hi; cases hg; rfl

/-- Characterization of `Entity.from_bits`: it succeeds exactly when the upper
32 bits of the word are nonzero, and then stores the two raw halves. -/
theorem Entity.from_bits_eq (bits : Nat) :
    Entity.from_bits bits =
      if h : 0 < bits / 2 ^ 32 then
        some (Entity.new { bits := bits / 2 ^ 32, bits_pos := h }
          { bits := bits % 2 ^ 32 })
      else none := by
  by_cases h : 0 < bits / 2 ^ 32
  · rw [dif_pos h]
    simp only [Entity.from_bits, RawData.decode, EntityIndex.from_bits,
      EntityGen.from_bits, dif_pos h]
  · rw [dif_neg h]
    simp only [Entity.from_bits, RawData.decode, EntityIndex.from_bits,
      EntityGen.from_bits, dif_neg h]

/-- C1, counterexample: at index 5 and generation 2, `Entity.to_bits` is not
the canonical word `(5 << 32) | 2 = 5 * 2^32 + 2` the claim asserts (the
actual value is `6 * 2^32 + 2`, built from the internal offset index). -/
theorem C1_counterexample :
    (Entity.new ((EntityIndex.new 5).get (by decide))
      ((EntityGen.new 2).get (by decide))).to_bits ≠ 5 * 2 ^ 32 + 2 := by decide

/-- C1, amended: for every index and generation, `Entity.to_bits` returns the
raw storage word `((index.get() + 1) << 32) | generation.get()` — the
internal offset representation of the index in the upper 32 bits, not the
canonical value; at index 5 and generation 2 this is `(6 << 32) | 2`. -/
theorem C1_to_bits_internal :
    (∀ (i : EntityIndex) (g : EntityGen),
      (Entity.new i g).to_bits = (i.get + 1) * 2 ^ 32 + g.get) ∧
    (Entity.new ((EntityIndex.new 5).get (by decide))
      ((EntityGen.new 2).get (by decide))).to_bits = 6 * 2 ^ 32 + 2 := by
  refine ⟨?_, by decide⟩
  intro i g
  obtain ⟨ib, ip⟩ := i
  obtain ⟨gb⟩ := g
  simp only [Entity.new, Entity.to_bits, EntityIndex.to_bits, EntityIndex.get,
    EntityGen.get, EntityGen.to_bits]
  omega

/-- C2, counterexample: `Entity.from_bits 0` is `none` although the upper 32
bits of 0 are not the reserved pattern `2^32 - 1`, and a word whose upper 32
bits are exactly `2^32 - 1` decodes successfully — both directions of the
claimed equivalence fail. -/
theorem C2_counterexample :
    Entity.from_bits 0 = none ∧ (0 : Nat) / 2 ^ 32 ≠ 2 ^ 32 - 1 ∧
      (Entity.from_bits ((2 ^ 32 - 1) * 2 ^ 32)).isSome = true := by decide

/-- C2, amended: for every 64-bit word, `Entity.from_bits` returns `none` if
and only if the upper 32 bits are zero (the invalid internal index pattern);
every other input succeeds. In particular `Entity.from_bits 0 = none`. -/
theorem C2_from_bits_none_iff (bits : Nat) (h : bits < 2 ^ 64) :
    Entity.from_bits bits = none ↔ bits / 2 ^ 32 = 0 := by
  rw [Entity.from_bits_eq]
  by_cases hd : 0 < bits / 2 ^ 32
  · rw [dif_pos hd]
    simp only [reduceCtorEq, false_iff]
    omega
  · rw [dif_neg hd]
    simp only [true_iff]
    omega

/-- C2, witness: the amended theorem applied at the concrete word 0. -/
theorem C2_witness : Entity.from_bits 0 = none :=
  (C2_from_bits_none_iff 0 (by norm_num)).mpr (by norm_num)

/-- C3: for all well-formed entities, the `Ord`-style comparison (`cmp`
returning `lt`, defined on `to_bits` as unsigned words) coincides with the
`lt` predicate, and `lt` holds exactly when the decoded pairs
`(index.get(), generation.get())` compare lexicographically. -/
theorem C3_ord_lex (a b : Entity) (ha : a.Wf) (hb : b.Wf) :
    (Entity.cmp a b = Ordering.lt ↔ Entity.lt a b = true) ∧
    (Entity.lt a b = true ↔ Entity.lexLt a b) := by
  have hga : a.generation.bits < 2 ^ 32 := ha.2
  have hgb : b.generation.bits < 2 ^ 32 := hb.2
  obtain ⟨⟨⟨ga⟩, ⟨ia, ipa⟩⟩⟩ := a
  obtain ⟨⟨⟨gb⟩, ⟨ib, ipb⟩⟩⟩ := b
  simp only [Entity.generation] at hga hgb
  simp only [Entity.cmp, Entity.lt, Entity.lexLt, Entity.to_bits, Entity.index,
    Entity.generation, EntityIndex.to_bits, EntityGen.to_bits, EntityIndex.get,
    EntityGen.get, Nat.compare_eq_lt, decide_eq_true_eq]
  exact ⟨trivial, by omega⟩

/-- C3, witness: the ordering theorem applied to the concrete entities
(index 1, generation 5) and (index 2, generation 0). -/
theorem C3_witness :
    Entity.lexLt
      (Entity.new ((EntityIndex.new 1).get (by decide)) ((EntityGen.new 5).get (by decide)))
      (Entity.new ((EntityIndex.new 2).get (by decide)) ((EntityGen.new 0).get (by decide))) :=
  ((C3_ord_lex _ _ (by decide) (by decide)).2).mp (by decide)

/-- C4: for every well-formed entity, decoding its encoded word gives the
entity back: `from_bits (to_bits e) = some e`. -/
theorem C4_round_trip (e : Entity) (h : e.Wf) :
    Entity.from_bits e.to_bits = some e := by
  have hg : e.generation.bits < 2 ^ 32 := h.2
  obtain ⟨⟨⟨gb⟩, ⟨ib, ip⟩⟩⟩ := e
  simp only [Entity.generation] at hg
  rw [Entity.from_bits_eq]
  have hbits : Entity.to_bits ⟨⟨⟨gb⟩, ⟨ib, ip⟩⟩⟩ = ib * 2 ^ 32 + gb := rfl
  have hdiv : Entity.to_bits ⟨⟨⟨gb⟩, ⟨ib, ip⟩⟩⟩ / 2 ^ 32 = ib := by
    rw [hbits]; omega
  have hmod : Entity.to_bits ⟨⟨⟨gb⟩, ⟨ib, ip⟩⟩⟩ % 2 ^ 32 = gb := by
    rw [hbits]; omega
  have hpos : 0 < Entity.to_bits ⟨⟨⟨gb⟩, ⟨ib, ip⟩⟩⟩ / 2 ^ 32 := by
    rw [hdiv]; exact ip
  rw [dif_pos hpos]
  exact congrArg some (Entity.eq_of_field_bits hdiv hmod)

/-- C4, witness: the round trip at the entity (index 7, generation 3). -/
theorem C4_witness :
    Entity.from_bits
      (Entity.new ((EntityIndex.new 7).get (by decide)) ((EntityGen.new 3).get (by decide))).to_bits
      = some (Entity.new ((EntityIndex.new 7).get (by decide)) ((EntityGen.new 3).get (by decide))) :=
  C4_round_trip _ (by decide)

/-- C5: the raw 64-bit storage word of every entity is nonzero, and in
particular the entity whose canonical index and generation are both zero
still has a nonzero storage word. -/
theorem C5_nonzero_storage :
    (∀ e : Entity, e.to_bits ≠ 0) ∧
    (Entity.new EntityIndex.MIN EntityGen.MIN).index.get = 0 ∧
    (Entity.new EntityIndex.MIN EntityGen.MIN).generation.get = 0 ∧
    (Entity.new EntityIndex.MIN EntityGen.MIN).to_bits ≠ 0 := by
  refine ⟨?_, by decide, by decide, by decide⟩
  intro e
  obtain ⟨⟨⟨gb⟩, ⟨ib, ip⟩⟩⟩ := e
  simp only [Entity.to_bits, EntityIndex.to_bits, EntityGen.to_bits]
  omega

/-- C6: `EntityIndex.new v` fails exactly when `v = 2^32 - 1`; at the
boundary, `new (2^32 - 2)` is `some EntityIndex.MAX` and `MAX` is the
placeholder. -/
theorem C6_index_boundary :
    (∀ v : Nat, v < 2 ^ 32 → (EntityIndex.new v = none ↔ v = 2 ^ 32 - 1)) ∧
    EntityIndex.new (2 ^ 32 - 2) = some EntityIndex.MAX ∧
    EntityIndex.MAX.is_placeholder = true := by
  refine ⟨?_, by decide, by decide⟩
  intro v hv
  simp only [EntityIndex.new, EntityIndex.from_bits]
  by_cases h : 0 < (v + 1) % 2 ^ 32
  · rw [dif_pos h]
    simp only [reduceCtorEq, false_iff]
    omega
  · rw [dif_neg h]
    simp only [true_iff]
    omega

/-- C6, witness: the boundary theorem applied at `v = 2^32 - 1`. -/
theorem C6_witness : EntityIndex.new (2 ^ 32 - 1) = none :=
  (C6_index_boundary.1 (2 ^ 32 - 1) (by norm_num)).mpr rfl

/-- C7: for every `v` in the `u32` range other than `2^32 - 1`, the index
built by `EntityIndex.new v` has internal bits `v + 1` and decoded value `v`. -/
theorem C7_new_to_bits_get (v : Nat) (hv : v < 2 ^ 32) (hne : v ≠ 2 ^ 32 - 1) :
    ∃ i : EntityIndex, EntityIndex.new v = some i ∧ i.to_bits = v + 1 ∧ i.get = v := by
  have hmod : (v + 1) % 2 ^ 32 = v + 1 := Nat.mod_eq_of_lt (by omega)
  refine ⟨{ bits := v + 1, bits_pos := Nat.succ_pos v }, ?_, rfl, rfl⟩
  simp only [EntityIndex.new, hmod, EntityIndex.from_bits]
  rw [dif_pos (Nat.succ_pos v)]

/-- C7, witness: the theorem applied at `v = 5`. -/
theorem C7_witness :
    ∃ i : EntityIndex, EntityIndex.new 5 = some i ∧ i.to_bits = 6 ∧ i.get = 5 :=
  C7_new_to_bits_get 5 (by norm_num) (by norm_num)

/-- C8: narrowing an index into an unsigned target width fails exactly when
the decoded value does not fit, and the index with decoded value 300 fails to
narrow to 8 bits but narrows to 16 bits. -/
theorem C8_narrowing :
    (∀ (w : Nat) (i : EntityIndex),
      EntityIndex.try_into_uint w i = none ↔ 2 ^ w ≤ i.get) ∧
    EntityIndex.try_into_uint 8 ((EntityIndex.new 300).get (by decide)) = none ∧
    EntityIndex.try_into_uint 16 ((EntityIndex.new 300).get (by decide)) = some 300 := by
  refine ⟨?_, by decide, by decide⟩
  intro w i
  simp only [EntityIndex.try_into_uint, uintTryFrom]
  by_cases h : i.get < 2 ^ w
  · rw [if_pos h]
    exact ⟨fun hn => (Option.some_ne_none _ hn).elim,
      fun hle => ((Nat.not_lt.mpr hle) h).elim⟩
  · rw [if_neg h]
    exact ⟨fun _ => Nat.not_lt.mp h, fun _ => rfl⟩

/-- C9: whenever decoding a 64-bit word succeeds, re-encoding the resulting
entity gives back the same word, so `from_bits` is a partial inverse of
`to_bits` on its whole success domain. -/
theorem C9_from_bits_inverse (bits : Nat) (_h64 : bits < 2 ^ 64) (e : Entity)
    (he : Entity.from_bits bits = some e) : e.to_bits = bits := by
  rw [Entity.from_bits_eq] at he
  by_cases hd : 0 < bits / 2 ^ 32
  · rw [dif_pos hd] at he
    injection he with he'
    subst he'
    simp only [Entity.new, Entity.to_bits, EntityIndex.to_bits, EntityGen.to_bits]
    omega
  · rw [dif_neg hd] at he
    exact absurd he (Option.noConfusion)

/-- C9, witness: the theorem applied at the word `2^32`, which decodes to the
entity with internal index bits 1 and generation 0. -/
theorem C9_witness :
    (Entity.new { bits := 1, bits_pos := Nat.one_pos } { bits := 0 }).to_bits = 2 ^ 32 :=
  C9_from_bits_inverse (2 ^ 32) (by norm_num) _ (by decide)

/-- C10: the default `EntityIndex` is the placeholder (decoded value
`2^32 - 2`), not `MIN`, while the default `EntityGen` is `MIN` (0). -/
theorem C10_defaults :
    EntityIndex.default = EntityIndex.PLACEHOLDER ∧
    EntityIndex.default.get = 2 ^ 32 - 2 ∧
    EntityIndex.default ≠ EntityIndex.MIN ∧
    EntityGen.default = EntityGen.MIN ∧
    EntityGen.default.get = 0 := by decide
